import Mathlib

/-!
Verification development for the data-access layer of the agent-datasource
repository: identifier quoting, the SQL query builder (`dataProvider`), the
remote response normalization (`sqlDatabase.remoteExecute`), table creation
(`createTable` / `createTableFromCSV`), the CSV codec (`utils/csv`), and the
CSV import flow (`ImportModal.validateAndImport`).

Strings are modelled by Lean `String` (a wrapper around `List Char`); JS
scalar values that travel as SQL parameters are modelled as strings; JS
objects used as records are modelled as association lists in key order.
-/

namespace Agds

/-- `name.replace(/"/g, '""')`: every double quote is doubled. -/
def escQuotes : List Char → List Char
  | [] => []
  | c :: rest => if c = '"' then '"' :: '"' :: escQuotes rest else c :: escQuotes rest

/-- Inverse direction used to state the round-trip property: collapse every
adjacent pair of double quotes back into one. -/
def unescQuotes : List Char → List Char
  | [] => []
  | [c] => [c]
  | c :: d :: rest =>
    if c = '"' ∧ d = '"' then '"' :: unescQuotes rest
    else c :: unescQuotes (d :: rest)

/-- `dataProvider.ts` line 4: `const quote = (name) => `"${name.replace(/"/g, '""')}"``. -/
def quote (name : String) : String := ⟨'"' :: escQuotes name.data ++ ['"']⟩

/-- Strip one outer character from each end (used to state the round trip). -/
def stripOuter (s : String) : String := ⟨(s.data.drop 1).dropLast⟩

/-- String-level wrapper for `unescQuotes`. -/
def undouble (s : String) : String := ⟨unescQuotes s.data⟩

/-- A quote-escaped identifier body never contains a lone (unpaired) double
quote, so an identifier cannot terminate its quoting context early. -/
def noLoneQuote : List Char → Bool
  | [] => true
  | [c] => c ≠ '"'
  | c :: d :: rest =>
    if c = '"' then (if d = '"' then noLoneQuote rest else false)
    else noLoneQuote (d :: rest)

theorem unescQuotes_cons₂ (c d : Char) (rest : List Char) :
    unescQuotes (c :: d :: rest)
      = if c = '"' ∧ d = '"' then '"' :: unescQuotes rest
        else c :: unescQuotes (d :: rest) := rfl

theorem noLoneQuote_cons₂ (c d : Char) (rest : List Char) :
    noLoneQuote (c :: d :: rest)
      = if c = '"' then (if d = '"' then noLoneQuote rest else false)
        else noLoneQuote (d :: rest) := rfl

theorem escQuotes_eq_nil_iff (l : List Char) : escQuotes l = [] ↔ l = [] := by
  cases l with
  | nil => simp [escQuotes]
  | cons c rest =>
    simp only [escQuotes]
    split <;> simp

theorem unescQuotes_escQuotes (l : List Char) : unescQuotes (escQuotes l) = l := by
  induction l with
  | nil => rfl
  | cons c rest ih =>
    by_cases hc : c = '"'
    · subst hc
      have he : escQuotes ('"' :: rest) = '"' :: '"' :: escQuotes rest := rfl
      rw [he, unescQuotes_cons₂]
      simp [ih]
    · rcases hrest : escQuotes rest with _ | ⟨d, ds⟩
      · have : rest = [] := (escQuotes_eq_nil_iff rest).mp hrest
        subst this
        simp [escQuotes, hc, unescQuotes]
      · simp only [escQuotes, if_neg hc, hrest]
        rw [unescQuotes_cons₂]
        rw [← hrest, ih]
        simp [hc]

theorem noLoneQuote_escQuotes (l : List Char) : noLoneQuote (escQuotes l) = true := by
  induction l with
  | nil => rfl
  | cons c rest ih =>
    by_cases hc : c = '"'
    · subst hc
      have he : escQuotes ('"' :: rest) = '"' :: '"' :: escQuotes rest := rfl
      rw [he, noLoneQuote_cons₂]
      simp [ih]
    · rcases hrest : escQuotes rest with _ | ⟨d, ds⟩
      · simp [escQuotes, hc, noLoneQuote, hrest]
      · simp only [escQuotes, if_neg hc, hrest]
        rw [noLoneQuote_cons₂]
        rw [← hrest, ih]
        simp [hc]

/-- Claim C3: quoting wraps the identifier once in double quotes with every
internal double quote doubled, and stripping the single outer pair of quotes
then un-doubling the internal quotes recovers the original identifier exactly. -/
theorem quote_roundtrip (s : String) :
    (quote s).data = '"' :: escQuotes s.data ++ ['"']
      ∧ undouble (stripOuter (quote s)) = s := by
  refine ⟨rfl, ?_⟩
  show (⟨unescQuotes ((('"' :: escQuotes s.data ++ ['"']).drop 1).dropLast)⟩ : String) = s
  have h1 : ('"' :: escQuotes s.data ++ ['"']).drop 1 = escQuotes s.data ++ ['"'] := rfl
  rw [h1, List.dropLast_concat, unescQuotes_escQuotes]

/-! ## SQL query builder (`dataProvider.ts`)

Each data-access operation is modelled by the parameterized SQL it sends to
`execQuery`: the SQL text together with the positional parameter list.
Scalar parameter values are modelled as strings. -/

/-- A parameterized SQL statement: the text sent to the remote endpoint plus
its positional bound-parameter list. -/
structure QueryT where
  sql : String
  params : List String
  deriving DecidableEq

/-- `sqlDatabase.ts` `ColumnMetadata`: one `PRAGMA table_info` row. -/
structure ColumnMetadata where
  cid : Int
  name : String
  type : String
  notnull : Int
  dflt_value : Option String
  pk : Int

/-- A refine `CrudFilter`: either a logical filter carrying `field`,
`operator` and `value` (value modelled as a string; the empty string is the
falsy value), or a conditional filter, which `getList` skips because it has
no `field`/`operator` keys. -/
inductive CrudFilter where
  | logical (field : String) (operator : String) (value : String)
  | conditional

/-- A refine sort entry: `{field, order}`. -/
structure Sorter where
  field : String
  order : String

/-- The pagination object as `getList` reads it: `(pagination as any).currentPage`
and `pagination.pageSize`, each possibly absent. -/
structure Pagination where
  currentPage : Option Int
  pageSize : Option Int

/-- JS `x || d` for a possibly-absent number: absent and `0` are falsy. -/
def jsOrInt (x : Option Int) (d : Int) : Int :=
  match x with
  | none => d
  | some v => if v = 0 then d else v

/-- `s.toUpperCase()` (character-wise upper-casing). -/
def jsUpper (s : String) : String := ⟨s.data.map Char.toUpper⟩

/-- `s.includes(sub)`: substring containment. -/
def strIncludes (s sub : String) : Bool := decide (sub.data <:+: s.data)

/-- `dataProvider.ts` lines 21-24: a column is searchable when its upper-cased
declared type contains `TEXT`, `CHAR` or `CLOB`. -/
def isTextLike (t : String) : Bool :=
  let u := jsUpper t
  strIncludes u "TEXT" || strIncludes u "CHAR" || strIncludes u "CLOB"

/-- One iteration of the `getList` filter loop (`dataProvider.ts` lines 14-33):
the WHERE clauses contributed and the parameters pushed. A conditional filter
contributes nothing; a logical filter contributes only when its field is `"q"`
and its value is truthy, and then adds one `LIKE ?` predicate per text-like
column (OR-joined) and one `%value%` parameter per predicate. -/
def filterStep (cols : List ColumnMetadata) : CrudFilter → List String × List String
  | CrudFilter.conditional => ([], [])
  | CrudFilter.logical field _op value =>
    if field = "q" ∧ value ≠ "" then
      let searchableCols := (cols.filter fun col => isTextLike col.type).map (·.name)
      if searchableCols.length > 0 then
        (["(" ++ String.intercalate " OR "
            (searchableCols.map fun col => quote col ++ " LIKE ?") ++ ")"],
         searchableCols.map fun _ => "%" ++ value ++ "%")
      else ([], [])
    else ([], [])

/-- The whole filter loop: clauses and params accumulated in order. The
source's outer `filters.length > 0` guard is omitted here because the fold
over an empty list already yields no clauses and no parameters. -/
def buildWhereParams (cols : List ColumnMetadata) (filters : List CrudFilter) :
    List String × List String :=
  filters.foldl (fun acc f =>
    ((acc.1 ++ (filterStep cols f).1), (acc.2 ++ (filterStep cols f).2))) ([], [])

/-- `dataProvider.ts` lines 35-37: `baseWhere` is empty unless some clause was
collected, in which case the clauses are AND-joined after ` WHERE `. -/
def baseWhereOf (cols : List ColumnMetadata) (filters : List CrudFilter) : String :=
  let whereClauses := (buildWhereParams cols filters).1
  if whereClauses.length > 0 then " WHERE " ++ String.intercalate " AND " whereClauses
  else ""

/-- `dataProvider.ts` lines 45-51: ORDER BY from the sorters, defaulting to
`id DESC`. -/
def orderTextOf (sorters : List Sorter) : String :=
  if sorters.length > 0 then
    " ORDER BY " ++ String.intercalate ", "
      (sorters.map fun s => quote s.field ++ " " ++ jsUpper s.order)
  else " ORDER BY id DESC"

/-- `dataProvider.ts` lines 53-59: LIMIT/OFFSET text. The page number and page
size (defaulted through JS `||`) are interpolated into the SQL text as numbers. -/
def limitTextOf : Option Pagination → String
  | none => ""
  | some p =>
    let currentPage := jsOrInt p.currentPage 1
    let pageSize := jsOrInt p.pageSize 10
    let offset := (currentPage - 1) * pageSize
    " LIMIT " ++ toString pageSize ++ " OFFSET " ++ toString offset

/-- `getList` (`dataProvider.ts` lines 7-68): the COUNT query and the main
SELECT query it executes, sharing `baseWhere` and the parameter list.
`cols` is the column metadata `getTableColumns(resource)` returns. -/
def getListQueries (resource : String) (filters : List CrudFilter)
    (sorters : List Sorter) (pagination : Option Pagination)
    (cols : List ColumnMetadata) : QueryT × QueryT :=
  let safeResource := quote resource
  let baseWhere := baseWhereOf cols filters
  let params := (buildWhereParams cols filters).2
  (⟨"SELECT COUNT(*) as total FROM " ++ safeResource ++ baseWhere, params⟩,
   ⟨"SELECT * FROM " ++ safeResource ++ baseWhere
      ++ orderTextOf sorters ++ limitTextOf pagination, params⟩)

/-- `getOne` (`dataProvider.ts` line 72): the SELECT-by-id query. -/
def getOneQuery (resource a : String) : QueryT :=
  ⟨"SELECT * FROM " ++ quote resource ++ " WHERE id = ?", [a]⟩

/-- `getOne` (`dataProvider.ts` lines 70-79) applied to the rows the executor
returned: zero rows raise the not-found error, otherwise the first row is
returned. -/
def getOneRun {α : Type} (resource a : String) (rows : List α) : Except String α :=
  match rows with
  | [] => Except.error ("Record with id " ++ a ++ " not found in " ++ resource)
  | r :: _ => Except.ok r

/-- `create` (`dataProvider.ts` lines 81-91): the INSERT built from the
variables object (an association list in key order) and the follow-up
best-effort re-read. -/
def createQueries (resource : String) (vars : List (String × String)) :
    QueryT × QueryT :=
  let safeResource := quote resource
  let keys := vars.map Prod.fst
  let cols := String.intercalate ", " (keys.map quote)
  let placeholders := String.intercalate ", " (keys.map fun _ => "?")
  let vals := vars.map Prod.snd
  (⟨"INSERT INTO " ++ safeResource ++ " (" ++ cols ++ ") VALUES (" ++ placeholders ++ ")",
    vals⟩,
   ⟨"SELECT * FROM " ++ safeResource ++ " ORDER BY id DESC LIMIT 1", []⟩)

/-- `update` (`dataProvider.ts` lines 93-102): the UPDATE and the re-read by id. -/
def updateQueries (resource a : String) (vars : List (String × String)) :
    QueryT × QueryT :=
  let safeResource := quote resource
  let keys := vars.map Prod.fst
  let setClause := String.intercalate ", " (keys.map fun key => quote key ++ " = ?")
  let vals := vars.map Prod.snd ++ [a]
  (⟨"UPDATE " ++ safeResource ++ " SET " ++ setClause ++ " WHERE id = ?", vals⟩,
   ⟨"SELECT * FROM " ++ safeResource ++ " WHERE id = ?", [a]⟩)

/-- `deleteOne` (`dataProvider.ts` lines 104-108). -/
def deleteOneQuery (resource a : String) : QueryT :=
  ⟨"DELETE FROM " ++ quote resource ++ " WHERE id = ?", [a]⟩

/-- `deleteMany` (`dataProvider.ts` lines 110-115): one placeholder per id,
comma-joined inside `IN (...)`, with the ids as the parameter list. -/
def deleteManyQuery (resource : String) (ids : List String) : QueryT :=
  ⟨"DELETE FROM " ++ quote resource ++ " WHERE id IN ("
      ++ String.intercalate ", " (ids.map fun _ => "?") ++ ")",
   ids⟩

/-- Claim C4: the COUNT query `getList` issues is identical (text and
parameters) for any two pagination requests; it is the COUNT(*) over the same
WHERE text as the main SELECT with no LIMIT/OFFSET appended, and it carries
exactly the same parameter list as the main SELECT. -/
theorem count_query_pagination_invariant (resource : String)
    (filters : List CrudFilter) (sorters : List Sorter)
    (p₁ p₂ : Option Pagination) (cols : List ColumnMetadata) :
    (getListQueries resource filters sorters p₁ cols).1
        = (getListQueries resource filters sorters p₂ cols).1
      ∧ (getListQueries resource filters sorters p₁ cols).1.sql
        = "SELECT COUNT(*) as total FROM " ++ quote resource ++ baseWhereOf cols filters
      ∧ (getListQueries resource filters sorters p₁ cols).2.sql
        = "SELECT * FROM " ++ quote resource ++ baseWhereOf cols filters
          ++ orderTextOf sorters ++ limitTextOf p₁
      ∧ (getListQueries resource filters sorters p₁ cols).1.params
        = (getListQueries resource filters sorters p₁ cols).2.params :=
  ⟨rfl, rfl, rfl, rfl⟩

/-- Claim C7: `getOne` fails with the not-found error exactly when the
underlying SELECT by id returns zero rows, and otherwise returns the first
returned row. -/
theorem getOne_notfound_iff (resource a : String) {α : Type} (rows : List α) :
    ((∃ e, getOneRun resource a rows = Except.error e) ↔ rows = [])
      ∧ getOneRun (α := α) resource a []
          = Except.error ("Record with id " ++ a ++ " not found in " ++ resource)
      ∧ (∀ (x : α) (xs : List α), getOneRun resource a (x :: xs) = Except.ok x) := by
  refine ⟨⟨?_, ?_⟩, rfl, fun x xs => rfl⟩
  · rintro ⟨e, he⟩
    cases rows with
    | nil => rfl
    | cons x xs => simp [getOneRun] at he
  · rintro rfl
    exact ⟨_, rfl⟩

/-- Claim C10: `deleteMany` with the empty id sequence still issues exactly one
DELETE whose IN list is empty and whose parameter list is empty; there is no
guard against the empty set. -/
theorem deleteMany_empty_ids (resource : String) :
    deleteManyQuery resource []
      = ⟨"DELETE FROM " ++ quote resource ++ " WHERE id IN ()", []⟩ := by
  have h1 : String.intercalate ", " (([] : List String).map fun _ => "?") = "" := rfl
  have h2 : (" WHERE id IN (" ++ ")" : String) = " WHERE id IN ()" := by decide
  simp only [deleteManyQuery, h1, String.append_empty]
  rw [String.append_assoc ("DELETE FROM " ++ quote resource) " WHERE id IN (" ")", h2]

/-! ## Table creation (`sqlDatabase.ts`) -/

/-- JS whitespace test for the characters `trim` removes (ASCII range). -/
def jsIsWS (c : Char) : Bool :=
  c = ' ' || c = '\t' || c = '\n' || c = '\r' || c = '\x0b' || c = '\x0c'

/-- JS `trim` on a character list: whitespace stripped from both ends. -/
def jsTrim (l : List Char) : List Char :=
  ((l.dropWhile jsIsWS).reverse.dropWhile jsIsWS).reverse

/-- JS `s.trim()`. -/
def jsTrimS (s : String) : String := ⟨jsTrim s.data⟩

/-- JS `s.toLowerCase()` (character-wise, ASCII). -/
def jsLower (s : String) : String := ⟨s.data.map Char.toLower⟩

/-- A manual column definition from `AddTableModal` (`{name, type}`). -/
structure ColumnDef where
  name : String
  type : String

/-- `createTable` (`sqlDatabase.ts` lines 87-91): a column whose trimmed,
lower-cased name is `id` is renamed to `original_id`; all other columns are
kept untouched. -/
def processCols (columns : List ColumnDef) : List ColumnDef :=
  columns.map fun c =>
    if jsLower (jsTrimS c.name) = "id" then { c with name := "original_id" } else c

/-- The CREATE TABLE statement `createTable` issues (`sqlDatabase.ts` lines
93-95): surrogate `id INTEGER PRIMARY KEY AUTOINCREMENT` first, then the
processed column definitions with quoted names. -/
def createTableSQL (tableName : String) (columns : List ColumnDef) : String :=
  let colDefs := String.intercalate ", "
    ((processCols columns).map fun c => quote c.name ++ " " ++ c.type)
  "CREATE TABLE " ++ quote tableName
    ++ " (id INTEGER PRIMARY KEY AUTOINCREMENT, " ++ colDefs ++ ")"

/-- `createTableFromCSV` (`sqlDatabase.ts` lines 101-105): a header whose
trimmed lower-cased form is `id` becomes `id_original`; every other header is
trimmed. -/
def processHeaders (headers : List String) : List String :=
  headers.map fun h =>
    if jsLower (jsTrimS h) = "id" then "id_original" else jsTrimS h

/-- The CREATE TABLE statement `createTableFromCSV` issues (`sqlDatabase.ts`
lines 107-110): every inferred column is declared TEXT. -/
def createTableFromCSVSQL (tableName : String) (headers : List String) : String :=
  let colDefs := String.intercalate ", "
    ((processHeaders headers).map fun h => quote h ++ " TEXT")
  "CREATE TABLE " ++ quote tableName
    ++ " (id INTEGER PRIMARY KEY AUTOINCREMENT, " ++ colDefs ++ ")"

theorem dropWhile_dropWhile (p : Char → Bool) (l : List Char) :
    (l.dropWhile p).dropWhile p = l.dropWhile p := by
  induction l with
  | nil => rfl
  | cons a t ih =>
    by_cases h : p a
    · rw [List.dropWhile_cons_of_pos h, ih]
    · rw [List.dropWhile_cons_of_neg h, List.dropWhile_cons_of_neg h]

theorem head?_dropWhile (p : Char → Bool) (l : List Char) (a : Char)
    (h : (l.dropWhile p).head? = some a) : p a = false := by
  induction l with
  | nil => simp [List.dropWhile] at h
  | cons c t ih =>
    by_cases hc : p c
    · rw [List.dropWhile_cons_of_pos hc] at h
      exact ih h
    · rw [List.dropWhile_cons_of_neg hc] at h
      simp only [List.head?_cons, Option.some.injEq] at h
      subst h
      simpa using hc

theorem dropWhile_eq_self_of_head? (p : Char → Bool) (l : List Char) (a : Char)
    (hh : l.head? = some a) (ha : p a = false) : l.dropWhile p = l := by
  cases l with
  | nil => rfl
  | cons c t =>
    simp only [List.head?_cons, Option.some.injEq] at hh
    subst hh
    exact List.dropWhile_cons_of_neg (by simp [ha])

theorem jsTrim_idem (l : List Char) : jsTrim (jsTrim l) = jsTrim l := by
  have lem1 := dropWhile_dropWhile jsIsWS
  rcases hB : (((l.dropWhile jsIsWS).reverse).dropWhile jsIsWS) with _ | ⟨b, bt⟩
  · have hz : jsTrim l = [] := by unfold jsTrim; rw [hB]; rfl
    rw [hz]
    rfl
  · -- the trimmed list is nonempty; its last element is the head of
    -- `l.dropWhile jsIsWS`, which is not whitespace
    set A := l.dropWhile jsIsWS with hA
    set B := (A.reverse).dropWhile jsIsWS with hBdef
    have hBne : B ≠ [] := by rw [hB]; exact List.cons_ne_nil b bt
    have hlast : B.getLast? = A.head? := by
      have hsplit : A.reverse.takeWhile jsIsWS ++ B = A.reverse :=
        List.takeWhile_append_dropWhile jsIsWS A.reverse
      calc B.getLast? = (A.reverse.takeWhile jsIsWS ++ B).getLast? :=
            (List.getLast?_append_of_ne_nil _ hBne).symm
        _ = A.reverse.getLast? := by rw [hsplit]
        _ = A.head? := List.getLast?_reverse A
    rcases hBl : B.getLast? with _ | a
    · rw [List.getLast?_eq_none_iff] at hBl
      exact absurd hBl hBne
    · have hhead : A.head? = some a := by rw [← hlast, hBl]
      have haw : jsIsWS a = false := head?_dropWhile jsIsWS l a hhead
      show jsTrim B.reverse = B.reverse
      unfold jsTrim
      rw [dropWhile_eq_self_of_head? jsIsWS B.reverse a
          (by rw [List.head?_reverse, hBl]) haw]
      rw [List.reverse_reverse]
      rw [hBdef, lem1]

/-- `jsTrimS` is idempotent, so re-trimming an already-trimmed header changes
nothing. -/
theorem jsTrimS_idem (s : String) : jsTrimS (jsTrimS s) = jsTrimS s :=
  congrArg String.mk (jsTrim_idem s.data)

/-- The predicate "this declared column name is (trimmed, case-insensitively)
`id`". -/
def isIdName (n : String) : Bool := jsLower (jsTrimS n) == "id"

theorem countP_processCols_zero (columns : List ColumnDef) :
    List.countP isIdName ((processCols columns).map (·.name)) = 0 := by
  induction columns with
  | nil => rfl
  | cons c cs ih =>
    simp only [processCols, List.map_cons, List.countP_cons] at *
    rw [ih]
    by_cases h : jsLower (jsTrimS c.name) = "id"
    · rw [if_pos h]
      have : isIdName "original_id" = false := by decide
      simp [this]
    · rw [if_neg h]
      have : isIdName c.name = false := by
        simp only [isIdName, beq_eq_false_iff_ne, ne_eq]
        exact h
      simp [this]

theorem countP_processHeaders_zero (headers : List String) :
    List.countP isIdName (processHeaders headers) = 0 := by
  induction headers with
  | nil => rfl
  | cons h hs ih =>
    simp only [processHeaders, List.map_cons, List.countP_cons] at *
    rw [ih]
    by_cases hid : jsLower (jsTrimS h) = "id"
    · rw [if_pos hid]
      have : isIdName "id_original" = false := by decide
      simp [this]
    · rw [if_neg hid]
      have : isIdName (jsTrimS h) = false := by
        simp only [isIdName, beq_eq_false_iff_ne, ne_eq, jsTrimS_idem]
        exact hid
      simp [this]

/-- Claim C5: for every column list (and CSV header list), the CREATE TABLE
statement declares the surrogate `id INTEGER PRIMARY KEY` first, renames any
user column whose trimmed lower-cased name is `id` (to `original_id` in the
manual path, `id_original` in the CSV path), and the resulting declared
column-name list contains exactly one name that is (trimmed,
case-insensitively) `id` — the surrogate key. -/
theorem id_column_unique (t : String) (columns : List ColumnDef)
    (headers : List String) :
    createTableSQL t columns
        = "CREATE TABLE " ++ quote t ++ " (id INTEGER PRIMARY KEY AUTOINCREMENT, "
          ++ String.intercalate ", "
              ((processCols columns).map fun c => quote c.name ++ " " ++ c.type)
          ++ ")"
      ∧ List.countP isIdName ("id" :: (processCols columns).map (·.name)) = 1
      ∧ createTableFromCSVSQL t headers
        = "CREATE TABLE " ++ quote t ++ " (id INTEGER PRIMARY KEY AUTOINCREMENT, "
          ++ String.intercalate ", "
              ((processHeaders headers).map fun h => quote h ++ " TEXT")
          ++ ")"
      ∧ List.countP isIdName ("id" :: processHeaders headers) = 1
      ∧ processCols columns
        = columns.map (fun c =>
            if jsLower (jsTrimS c.name) = "id" then { c with name := "original_id" } else c)
      ∧ processHeaders headers
        = headers.map (fun h =>
            if jsLower (jsTrimS h) = "id" then "id_original" else jsTrimS h) := by
  refine ⟨rfl, ?_, rfl, ?_, rfl, rfl⟩
  · rw [List.countP_cons, countP_processCols_zero]
    decide
  · rw [List.countP_cons, countP_processHeaders_zero]
    decide

/-! ## CSV import flow (`ImportModal.tsx`) -/

/-- The import mode chosen in the modal. -/
inductive ImportMode where
  | append
  | replace

/-- One network operation the import flow performs: either a SQL statement
through `execQuery`, or a multipart upload of the file to the upload endpoint
with the given table and mode form fields. -/
inductive NetOp where
  | query (sql : String) (params : List String)
  | upload (table : String) (mode : String)
  deriving DecidableEq

/-- `validateAndImport` (`ImportModal.tsx` lines 38-55): in replace mode it
first issues `DELETE FROM "<resource>"` through `execQuery`, then uploads the
file with mode `append`; in append mode it only uploads. -/
def validateAndImportOps (resource : String) (mode : ImportMode) : List NetOp :=
  (match mode with
   | ImportMode.replace => [NetOp.query ("DELETE FROM " ++ quote resource) []]
   | ImportMode.append => [])
  ++ [NetOp.upload resource "append"]

/-- Claim C9: a replace-mode import issues exactly one DELETE (with no WHERE
clause, removing all rows) followed, as a second separate network operation,
by the upload in append mode; an append-mode import issues no DELETE. -/
theorem replace_mode_two_ops (resource : String) :
    validateAndImportOps resource ImportMode.replace
        = [NetOp.query ("DELETE FROM " ++ quote resource) [],
           NetOp.upload resource "append"]
      ∧ validateAndImportOps resource ImportMode.append
        = [NetOp.upload resource "append"] :=
  ⟨rfl, rfl⟩

/-! ## The free-text `q` filter (claims C1, C2) -/

/-- The searchable column names: those whose declared type is text-like. -/
def searchableNames (cols : List ColumnMetadata) : List String :=
  (cols.filter fun col => isTextLike col.type).map (·.name)

/-- The WHERE text `getList` produces for a single applied `q` filter: one
`LIKE ?` predicate per text-like column, OR-joined, or nothing when no column
is text-like. -/
def qWhereText (cols : List ColumnMetadata) : String :=
  if (searchableNames cols).length > 0 then
    " WHERE " ++ ("(" ++ String.intercalate " OR "
      ((searchableNames cols).map fun col => quote col ++ " LIKE ?") ++ ")")
  else ""

theorem buildWhereParams_q (cols : List ColumnMetadata) (op w : String) (hw : w ≠ "") :
    buildWhereParams cols [CrudFilter.logical "q" op w]
      = if (searchableNames cols).length > 0
        then (["(" ++ String.intercalate " OR "
                ((searchableNames cols).map fun col => quote col ++ " LIKE ?") ++ ")"],
              (searchableNames cols).map fun _ => "%" ++ w ++ "%")
        else ([], []) := by
  have hstep : filterStep cols (CrudFilter.logical "q" op w)
      = if (searchableNames cols).length > 0
        then (["(" ++ String.intercalate " OR "
                ((searchableNames cols).map fun col => quote col ++ " LIKE ?") ++ ")"],
              (searchableNames cols).map fun _ => "%" ++ w ++ "%")
        else ([], []) := by
    show (if ("q" : String) = "q" ∧ w ≠ ""
        then (if (searchableNames cols).length > 0
          then (["(" ++ String.intercalate " OR "
                  ((searchableNames cols).map fun col => quote col ++ " LIKE ?") ++ ")"],
                (searchableNames cols).map fun _ => "%" ++ w ++ "%")
          else ([], []))
        else ([], [])) = _
    rw [if_pos ⟨rfl, hw⟩]
  show ((([] : List String) ++ (filterStep cols (CrudFilter.logical "q" op w)).1),
        (([] : List String) ++ (filterStep cols (CrudFilter.logical "q" op w)).2)) = _
  rw [hstep]
  by_cases hs : (searchableNames cols).length > 0
  · rw [if_pos hs]
    simp
  · rw [if_neg hs]
    simp

theorem baseWhereOf_q (cols : List ColumnMetadata) (op w : String) (hw : w ≠ "") :
    baseWhereOf cols [CrudFilter.logical "q" op w] = qWhereText cols := by
  have hsingle : ∀ s : String, String.intercalate " AND " [s] = s := fun s => rfl
  unfold baseWhereOf qWhereText
  rw [buildWhereParams_q cols op w hw]
  by_cases hs : (searchableNames cols).length > 0
  · simp only [if_pos hs, List.length_singleton]
    rw [if_pos (by decide : (1 : Nat) > 0), hsingle]
  · simp only [if_neg hs]
    simp

theorem whereParams_q (cols : List ColumnMetadata) (op w : String) (hw : w ≠ "") :
    (buildWhereParams cols [CrudFilter.logical "q" op w]).2
      = (searchableNames cols).map fun _ => "%" ++ w ++ "%" := by
  rw [buildWhereParams_q cols op w hw]
  by_cases hs : (searchableNames cols).length > 0
  · rw [if_pos hs]
  · rw [if_neg hs]
    have hnil : searchableNames cols = [] :=
      List.length_eq_zero.mp (Nat.eq_zero_of_not_pos hs)
    rw [hnil]
    rfl

/-- Claim C2: for an applied `q` filter with truthy value `v`, both queries
`getList` issues carry a WHERE clause with exactly one `LIKE ?` predicate per
text-like column (OR-joined) and no predicate for any other column; the SQL
text is identical for every truthy value; and `v` reaches the query only as
the bound parameters `%v%`, one per predicate. -/
theorem q_filter_like_predicates (resource op v : String) (sorters : List Sorter)
    (pag : Option Pagination) (cols : List ColumnMetadata) (hv : v ≠ "") :
    (getListQueries resource [CrudFilter.logical "q" op v] sorters pag cols).2.sql
        = "SELECT * FROM " ++ quote resource ++ qWhereText cols
          ++ orderTextOf sorters ++ limitTextOf pag
      ∧ (getListQueries resource [CrudFilter.logical "q" op v] sorters pag cols).1.sql
        = "SELECT COUNT(*) as total FROM " ++ quote resource ++ qWhereText cols
      ∧ (getListQueries resource [CrudFilter.logical "q" op v] sorters pag cols).1.params
        = (searchableNames cols).map (fun _ => "%" ++ v ++ "%")
      ∧ (getListQueries resource [CrudFilter.logical "q" op v] sorters pag cols).2.params
        = (searchableNames cols).map (fun _ => "%" ++ v ++ "%")
      ∧ (∀ v', v' ≠ "" →
          (getListQueries resource [CrudFilter.logical "q" op v'] sorters pag cols).2.sql
            = (getListQueries resource [CrudFilter.logical "q" op v] sorters pag cols).2.sql) := by
  have shape : ∀ w, w ≠ "" →
      (getListQueries resource [CrudFilter.logical "q" op w] sorters pag cols).2.sql
        = "SELECT * FROM " ++ quote resource ++ qWhereText cols
          ++ orderTextOf sorters ++ limitTextOf pag := by
    intro w hw
    show "SELECT * FROM " ++ quote resource
        ++ baseWhereOf cols [CrudFilter.logical "q" op w]
        ++ orderTextOf sorters ++ limitTextOf pag = _
    rw [baseWhereOf_q cols op w hw]
  refine ⟨shape v hv, ?_, ?_, ?_, fun v' hv' => (shape v' hv').trans (shape v hv).symm⟩
  · show "SELECT COUNT(*) as total FROM " ++ quote resource
        ++ baseWhereOf cols [CrudFilter.logical "q" op v] = _
    rw [baseWhereOf_q cols op v hv]
  · exact whereParams_q cols op v hv
  · exact whereParams_q cols op v hv

/-- Witness for C2 at a concrete schema (one TEXT column, one INTEGER column)
and the concrete value `x%`: the parameter list is exactly `["%x%%"]`. -/
theorem q_filter_like_predicates_witness :
    (getListQueries "t" [CrudFilter.logical "q" "contains" "x%"] [] none
        [⟨0, "name", "TEXT", 0, none, 0⟩, ⟨1, "n", "INTEGER", 0, none, 1⟩]).2.params
      = ["%x%%"] :=
  ((q_filter_like_predicates "t" "contains" "x%" [] none
      [⟨0, "name", "TEXT", 0, none, 0⟩, ⟨1, "n", "INTEGER", 0, none, 1⟩]
      (by decide)).2.2.2.1).trans (by decide)

/-- Counterexample to claim C1 as stated: with pagination
`{currentPage: 2, pageSize: 25}`, the pagination-derived numbers 25 and 25
are interpolated into the SQL text of the main SELECT while the
bound-parameter list is empty — they do not travel as bound parameters. -/
theorem pagination_numbers_in_sql_text :
    (getListQueries "t" [] [] (some ⟨some 2, some 25⟩) []).2.sql
        = "SELECT * FROM \"t\" ORDER BY id DESC LIMIT 25 OFFSET 25"
      ∧ (getListQueries "t" [] [] (some ⟨some 2, some 25⟩) []).2.params = []
      ∧ strIncludes (getListQueries "t" [] [] (some ⟨some 2, some 25⟩) []).2.sql "25"
        = true := by
  refine ⟨by decide, rfl, by decide⟩

/-- Claim C1 (amended): every identifier is interpolated only through `quote`,
which wraps it once in double quotes with internal quotes doubled and never
leaves a lone internal quote; for every operation, all caller-supplied values
— filter values, ids and field values, but not the pagination-derived
LIMIT/OFFSET numbers — travel only in the bound-parameter list, so the SQL
text is unchanged when the values change; the pagination-derived LIMIT/OFFSET
numbers are interpolated into the SQL text. -/
theorem sql_parameterization_amended :
    (∀ name : String, (quote name).data = '"' :: escQuotes name.data ++ ['"']
        ∧ noLoneQuote (escQuotes name.data) = true)
      ∧ (∀ r a b : String, (getOneQuery r a).sql = (getOneQuery r b).sql
          ∧ (getOneQuery r a).params = [a])
      ∧ (∀ r a b : String, (deleteOneQuery r a).sql = (deleteOneQuery r b).sql
          ∧ (deleteOneQuery r a).params = [a])
      ∧ (∀ (r : String) (ids ids' : List String), ids.length = ids'.length →
          (deleteManyQuery r ids).sql = (deleteManyQuery r ids').sql)
      ∧ (∀ (r : String) (ids : List String), (deleteManyQuery r ids).params = ids)
      ∧ (∀ (r : String) (vs vs' : List (String × String)),
          vs.map Prod.fst = vs'.map Prod.fst →
          (createQueries r vs).1.sql = (createQueries r vs').1.sql)
      ∧ (∀ (r : String) (vs : List (String × String)),
          (createQueries r vs).1.params = vs.map Prod.snd
            ∧ (createQueries r vs).2.params = [])
      ∧ (∀ (r a : String) (vs vs' : List (String × String)),
          vs.map Prod.fst = vs'.map Prod.fst →
          (updateQueries r a vs).1.sql = (updateQueries r a vs').1.sql)
      ∧ (∀ (r a : String) (vs : List (String × String)),
          (updateQueries r a vs).1.params = vs.map Prod.snd ++ [a]
            ∧ (updateQueries r a vs).2.params = [a])
      ∧ (∀ (r op v v' : String) (sorters : List Sorter) (pag : Option Pagination)
          (cols : List ColumnMetadata), v ≠ "" → v' ≠ "" →
          (getListQueries r [CrudFilter.logical "q" op v] sorters pag cols).2.sql
            = (getListQueries r [CrudFilter.logical "q" op v'] sorters pag cols).2.sql
          ∧ (getListQueries r [CrudFilter.logical "q" op v] sorters pag cols).2.params
            = (searchableNames cols).map (fun _ => "%" ++ v ++ "%"))
      ∧ (∀ (r : String) (filters : List CrudFilter) (sorters : List Sorter)
          (p : Pagination) (cols : List ColumnMetadata),
          (getListQueries r filters sorters (some p) cols).2.sql
            = "SELECT * FROM " ++ quote r ++ baseWhereOf cols filters
              ++ orderTextOf sorters ++ limitTextOf (some p)
          ∧ limitTextOf (some p)
            = " LIMIT " ++ toString (jsOrInt p.pageSize 10) ++ " OFFSET "
              ++ toString ((jsOrInt p.currentPage 1 - 1) * jsOrInt p.pageSize 10)
          ∧ (getListQueries r filters sorters (some p) cols).2.params
            = (buildWhereParams cols filters).2) := by
  have hmapq : ∀ (xs : List String), xs.map (fun _ => ("?" : String))
      = List.replicate xs.length "?" := by
    intro xs
    induction xs with
    | nil => rfl
    | cons x t ih => simp [ih, List.replicate_succ]
  refine ⟨fun name => ⟨rfl, noLoneQuote_escQuotes _⟩,
    fun r a b => ⟨rfl, rfl⟩,
    fun r a b => ⟨rfl, rfl⟩,
    ?_, fun r ids => rfl, ?_, fun r vs => ⟨rfl, rfl⟩, ?_, fun r a vs => ⟨rfl, rfl⟩,
    ?_, fun r filters sorters p cols => ⟨rfl, rfl, rfl⟩⟩
  · intro r ids ids' hlen
    exact congrArg
      (fun qs : List String =>
        "DELETE FROM " ++ quote r ++ " WHERE id IN ("
          ++ String.intercalate ", " qs ++ ")")
      (by rw [hmapq ids, hmapq ids', hlen])
  · intro r vs vs' hkeys
    exact congrArg
      (fun ks : List String =>
        "INSERT INTO " ++ quote r ++ " (" ++ String.intercalate ", " (ks.map quote)
          ++ ") VALUES (" ++ String.intercalate ", " (ks.map fun _ => "?") ++ ")")
      hkeys
  · intro r a vs vs' hkeys
    exact congrArg
      (fun ks : List String =>
        "UPDATE " ++ quote r ++ " SET "
          ++ String.intercalate ", " (ks.map fun key => quote key ++ " = ?")
          ++ " WHERE id = ?")
      hkeys
  · intro r op v v' sorters pag cols hv hv'
    constructor
    · show "SELECT * FROM " ++ quote r
          ++ baseWhereOf cols [CrudFilter.logical "q" op v]
          ++ orderTextOf sorters ++ limitTextOf pag
        = "SELECT * FROM " ++ quote r
          ++ baseWhereOf cols [CrudFilter.logical "q" op v']
          ++ orderTextOf sorters ++ limitTextOf pag
      rw [baseWhereOf_q cols op v hv, baseWhereOf_q cols op v' hv']
    · exact whereParams_q cols op v hv

/-- Witness for the amended C1: concrete instances of the value-independence
conjuncts, with every hypothesis discharged at a concrete input. -/
theorem sql_parameterization_amended_witness :
    (deleteManyQuery "t" ["1"]).sql = (deleteManyQuery "t" ["2"]).sql
      ∧ (createQueries "t" [("a", "x")]).1.sql = (createQueries "t" [("a", "y")]).1.sql
      ∧ (updateQueries "t" "7" [("a", "x")]).1.sql
        = (updateQueries "t" "7" [("a", "y")]).1.sql
      ∧ (getListQueries "t" [CrudFilter.logical "q" "contains" "abc"] [] none []).2.sql
        = (getListQueries "t" [CrudFilter.logical "q" "contains" "zz"] [] none []).2.sql := by
  obtain ⟨-, -, -, h4, -, h6, -, h8, -, h10, -⟩ := sql_parameterization_amended
  exact ⟨h4 "t" ["1"] ["2"] (by decide),
    h6 "t" [("a", "x")] [("a", "y")] (by decide),
    h8 "t" "7" [("a", "x")] [("a", "y")] (by decide),
    (h10 "t" "contains" "abc" "zz" [] none [] (by decide) (by decide)).1⟩

/-! ## Remote response normalization (`sqlDatabase.ts`, `remoteExecute`) -/

/-- A JSON value, as the remote endpoint may return it. -/
inductive JVal where
  | null
  | jbool (b : Bool)
  | jnum (n : Int)
  | jstr (s : String)
  | jarr (elems : List JVal)
  | jobj (fields : List (String × JVal))

/-- JS truthiness of a JSON value (`[]` and `{}` are truthy). -/
def truthy : JVal → Bool
  | JVal.null => false
  | JVal.jbool b => b
  | JVal.jnum n => n != 0
  | JVal.jstr s => s != ""
  | JVal.jarr _ => true
  | JVal.jobj _ => true

/-- Property read on a JS object: `none` models `undefined` (absent key). -/
def jsGet (fields : List (String × JVal)) (k : String) : Option JVal :=
  (fields.find? fun p => p.1 == k).map (·.2)

/-- JS `a || b` where `a` may be an absent property (`undefined` is falsy). -/
def jsOrV (a : Option JVal) (b : JVal) : JVal :=
  match a with
  | some v => if truthy v then v else b
  | none => b

/-- Array test, JS `Array.isArray`. -/
def isJArr : JVal → Bool
  | JVal.jarr _ => true
  | _ => false

/-- The response normalization in `remoteExecute` (`sqlDatabase.ts` lines
26-36): a bare array is returned as is; for a non-null object, `finalData`
is `data.results || data.data || (data.rows ? data.rows : [])`, returned when
it is an array, and otherwise the whole object is wrapped as a one-element
array when the object has at least one key (`finalData` itself — a non-array —
would be returned for an empty object, a branch that is unreachable because an
empty object makes `finalData` the empty array); any other value yields the
empty array. -/
def normalize : JVal → JVal
  | JVal.jarr xs => JVal.jarr xs
  | JVal.jobj fields =>
    let finalData := jsOrV (jsGet fields "results")
      (jsOrV (jsGet fields "data")
        (match jsGet fields "rows" with
         | some v => if truthy v then v else JVal.jarr []
         | none => JVal.jarr []))
    if isJArr finalData then finalData
    else if fields.length > 0 then JVal.jarr [JVal.jobj fields] else finalData
  | _ => JVal.jarr []

/-- Modelled from the claim's words, for comparison: the array under the first
wrapper key among `results`, `data`, `rows` that yields an array; otherwise,
a non-empty object is wrapped as a one-element sequence; otherwise empty. -/
def firstArrayKey (fields : List (String × JVal)) : List String → Option (List JVal)
  | [] => none
  | k :: ks =>
    match jsGet fields k with
    | some (JVal.jarr xs) => some xs
    | _ => firstArrayKey fields ks

/-- The normalization the claim describes (see `firstArrayKey`). -/
def normalizeClaimed : JVal → JVal
  | JVal.jarr xs => JVal.jarr xs
  | JVal.jobj fields =>
    match firstArrayKey fields ["results", "data", "rows"] with
    | some xs => JVal.jarr xs
    | none => if fields.length > 0 then JVal.jarr [JVal.jobj fields] else JVal.jarr []
  | _ => JVal.jarr []

/-- The first wrapper key with a truthy value, scanned in order — this is what
the `||` chain in the code actually selects. -/
def firstTruthy (fields : List (String × JVal)) : List String → Option JVal
  | [] => none
  | k :: ks =>
    match jsGet fields k with
    | some v => if truthy v then some v else firstTruthy fields ks
    | none => firstTruthy fields ks

/-- The amended normalization: the value under the first truthy wrapper key is
the result when it is an array; a truthy non-array wrapper value causes the
whole object to be wrapped as a single row; an object with no truthy wrapper
key yields the empty sequence even when the object is non-empty. -/
def normalizeAmended : JVal → JVal
  | JVal.jarr xs => JVal.jarr xs
  | JVal.jobj fields =>
    match firstTruthy fields ["results", "data", "rows"] with
    | some (JVal.jarr xs) => JVal.jarr xs
    | some _ => JVal.jarr [JVal.jobj fields]
    | none => JVal.jarr []
  | _ => JVal.jarr []

theorem jsGet_some_ne_nil {fields : List (String × JVal)} {k : String} {v : JVal}
    (h : jsGet fields k = some v) : fields ≠ [] := by
  intro hnil
  subst hnil
  simp [jsGet] at h

/-- Counterexample to claim C8 as stated: for the non-empty object
`{foo: 1}`, which has no wrapper key, the code returns the empty sequence —
`finalData` defaults to the empty array, which is an array, so the
"wrap the non-empty object as a single row" branch is never reached — while
the claim prescribes the one-element wrap `[{foo: 1}]`. -/
theorem normalize_wrap_counterexample :
    normalize (JVal.jobj [("foo", JVal.jnum 1)]) = JVal.jarr []
      ∧ normalizeClaimed (JVal.jobj [("foo", JVal.jnum 1)])
        = JVal.jarr [JVal.jobj [("foo", JVal.jnum 1)]]
      ∧ normalize (JVal.jobj [("foo", JVal.jnum 1)])
        ≠ normalizeClaimed (JVal.jobj [("foo", JVal.jnum 1)]) := by
  refine ⟨rfl, rfl, ?_⟩
  intro h
  rw [show normalize (JVal.jobj [("foo", JVal.jnum 1)]) = JVal.jarr [] from rfl,
    show normalizeClaimed (JVal.jobj [("foo", JVal.jnum 1)])
      = JVal.jarr [JVal.jobj [("foo", JVal.jnum 1)]] from rfl] at h
  simp at h

/-- The `||` chain `data.results || data.data || (data.rows ? data.rows : [])`
generalized over a key list, ending in the empty array. -/
def chainOr (fields : List (String × JVal)) : List String → JVal
  | [] => JVal.jarr []
  | k :: ks => jsOrV (jsGet fields k) (chainOr fields ks)

theorem chainOr_eq_firstTruthy (fields : List (String × JVal)) (ks : List String) :
    chainOr fields ks = (firstTruthy fields ks).getD (JVal.jarr []) := by
  induction ks with
  | nil => rfl
  | cons k ks ih =>
    simp only [chainOr, firstTruthy]
    rcases h : jsGet fields k with _ | v
    · simpa [jsOrV] using ih
    · by_cases ht : truthy v
      · simp [jsOrV, ht]
      · simp only [jsOrV, Bool.not_eq_true] at ht ⊢
        simp [ht, ih]

theorem firstTruthy_some_ne_nil {fields : List (String × JVal)} {ks : List String}
    {v : JVal} (h : firstTruthy fields ks = some v) : fields ≠ [] := by
  induction ks with
  | nil => simp [firstTruthy] at h
  | cons k ks ih =>
    simp only [firstTruthy] at h
    rcases hk : jsGet fields k with _ | w
    · rw [hk] at h
      exact ih h
    · exact jsGet_some_ne_nil hk

/-- Claim C8 (amended): the executor's normalization returns the body itself
for an array; for an object it takes the value under the first truthy wrapper
key among `results`, `data`, `rows` — the result when that value is an array,
and otherwise (truthy non-array wrapper value) the whole object wrapped as a
single row; an object with no truthy wrapper key yields the empty sequence
(even when non-empty), and any other body yields the empty sequence. -/
theorem normalize_amended_eq (j : JVal) : normalize j = normalizeAmended j := by
  cases j with
  | jarr xs => rfl
  | null => rfl
  | jbool b => rfl
  | jnum n => rfl
  | jstr s => rfl
  | jobj fields =>
    have hchain : normalize (JVal.jobj fields)
        = (if isJArr (chainOr fields ["results", "data", "rows"])
           then chainOr fields ["results", "data", "rows"]
           else if fields.length > 0 then JVal.jarr [JVal.jobj fields]
           else chainOr fields ["results", "data", "rows"]) := rfl
    rw [hchain, chainOr_eq_firstTruthy]
    rcases hft : firstTruthy fields ["results", "data", "rows"] with _ | v
    · simp [normalizeAmended, hft, isJArr]
    · have hne : fields ≠ [] := firstTruthy_some_ne_nil hft
      have hlen : fields.length > 0 := List.length_pos.mpr hne
      cases v with
      | jarr xs => simp [normalizeAmended, hft, isJArr]
      | null => simp [normalizeAmended, hft, isJArr, hlen]
      | jbool b => simp [normalizeAmended, hft, isJArr, hlen]
      | jnum n => simp [normalizeAmended, hft, isJArr, hlen]
      | jstr s => simp [normalizeAmended, hft, isJArr, hlen]
      | jobj g => simp [normalizeAmended, hft, isJArr, hlen]

/-! ## CSV codec (`utils/csv.ts`)

`generateCSV` takes row objects (association lists) and a header list;
`parseCSV` splits the text into lines first (`/\r?\n/`, dropping
whitespace-only lines) and only then processes quotes within each line. -/

/-- JS `join(sep)` on a list of character lists. -/
def joinSep (sep : Char) : List (List Char) → List Char
  | [] => []
  | [x] => x
  | x :: y :: t => x ++ sep :: joinSep sep (y :: t)

/-- JS `row[header]` on a row object modelled as an association list:
`none` models `undefined`. -/
def rowGet (r : List (String × String)) (h : String) : Option String :=
  (r.find? fun p => p.1 == h).map (·.2)

/-- `generateCSV`'s `escape` (`utils/csv.ts` lines 6-13): `null`/`undefined`
become the empty cell; a value containing a comma, double quote or newline is
wrapped in double quotes with internal quotes doubled; anything else is
emitted verbatim. -/
def csvNeedsQuote (s : List Char) : Bool :=
  s.contains ',' || s.contains '"' || s.contains '\n'

/-- See `csvNeedsQuote`. -/
def csvEscape : Option String → String
  | none => ""
  | some s => if csvNeedsQuote s.data then ⟨'"' :: escQuotes s.data ++ ['"']⟩ else s

/-- `generateCSV` (`utils/csv.ts` lines 5-21): header row joined with commas
(headers are not escaped), one body line per row with each cell escaped, lines
joined with `\n`, and a `\n` between header row and body. -/
def generateCSV (data : List (List (String × String))) (headers : List String) :
    String :=
  let headerRow := joinSep ',' (headers.map String.data)
  let bodyRows := joinSep '\n'
    (data.map fun row => joinSep ',' (headers.map fun h => (csvEscape (rowGet row h)).data))
  ⟨headerRow ++ '\n' :: bodyRows⟩

/-- The `/\r?\n/` split in `parseCSV` (`utils/csv.ts` line 27): a newline ends
a line, consuming one carriage return immediately before it; a lone carriage
return is ordinary content. -/
def splitLines : List Char → List (List Char)
  | [] => [[]]
  | '\r' :: '\n' :: rest => [] :: splitLines rest
  | '\n' :: rest => [] :: splitLines rest
  | c :: rest =>
    match splitLines rest with
    | [] => [[c]]
    | l :: ls => (c :: l) :: ls

/-- The character loop of `parseLine` (`utils/csv.ts` lines 30-49): a doubled
quote appends one literal quote (and skips both characters), a lone quote
toggles the in-quote state, a comma outside quotes ends the cell, and any
other character is appended to the current cell. -/
def parseLineGo : List Char → List Char → Bool → List (List Char)
  | [], cur, _ => [cur]
  | '"' :: '"' :: rest, cur, inQ => parseLineGo rest (cur ++ ['"']) inQ
  | '"' :: rest, cur, inQ => parseLineGo rest cur (!inQ)
  | c :: rest, cur, inQ =>
    if c = ',' ∧ inQ = false then cur :: parseLineGo rest [] inQ
    else parseLineGo rest (cur ++ [c]) inQ

/-- `parseLine` applied to one line. -/
def parseLine (line : List Char) : List (List Char) := parseLineGo line [] false

/-- `obj[h] = values[i]?.trim()` over the headers with their indices
(`utils/csv.ts` lines 53-59), the object represented as an association list in
header order; `none` models a missing value index. -/
def buildRow : List String → List (List Char) → List (String × Option String)
  | [], _ => []
  | h :: hs, [] => (h, none) :: buildRow hs []
  | h :: hs, v :: vs => (h, some ⟨jsTrim v⟩) :: buildRow hs vs

/-- The result shape of `parseCSV`. -/
structure ParsedCSV where
  headers : List String
  rows : List (List (String × Option String))
  deriving DecidableEq

/-- `parseCSV` (`utils/csv.ts` lines 26-63): split into lines, drop
whitespace-only lines, parse and trim the header line, then build one row
object per remaining line. -/
def parseCSV (text : String) : ParsedCSV :=
  let lines := (splitLines text.data).filter fun l => !(jsTrim l).isEmpty
  match lines with
  | [] => ⟨[], []⟩
  | l0 :: rest =>
    let headers := (parseLine l0).map fun h => (⟨jsTrim h⟩ : String)
    ⟨headers, rest.map fun line => buildRow headers (parseLine line)⟩

/-! ### Equation helpers for the overlapping-pattern CSV functions -/

theorem plg_pair (rest cur : List Char) (inQ : Bool) :
    parseLineGo ('"' :: '"' :: rest) cur inQ = parseLineGo rest (cur ++ ['"']) inQ := rfl

theorem plg_quote_last (cur : List Char) (inQ : Bool) :
    parseLineGo ['"'] cur inQ = [cur] := rfl

theorem plg_quote (d : Char) (rest cur : List Char) (inQ : Bool) (hd : d ≠ '"') :
    parseLineGo ('"' :: d :: rest) cur inQ = parseLineGo (d :: rest) cur (!inQ) := by
  rw [parseLineGo.eq_def]
  split
  · simp_all
  · simp_all
  · simp_all
  · rename_i hne heq
    first
    | exact absurd heq.1.symm hne
    | (injection heq with h1 h2; exact absurd h1.symm hne)

theorem plg_other (c : Char) (rest cur : List Char) (inQ : Bool) (hc : c ≠ '"') :
    parseLineGo (c :: rest) cur inQ
      = if c = ',' ∧ inQ = false then cur :: parseLineGo rest [] inQ
        else parseLineGo rest (cur ++ [c]) inQ := by
  rw [parseLineGo.eq_def]
  split
  all_goals simp_all

/-- A character other than a double quote is consumed into the current cell
when inside quotes, whatever it is. -/
theorem plg_inquote (c : Char) (rest cur : List Char) (hc : c ≠ '"') :
    parseLineGo (c :: rest) cur true = parseLineGo rest (cur ++ [c]) true := by
  rw [plg_other c rest cur true hc]
  rw [if_neg (by simp)]

/-- A comma outside quotes ends the current cell. -/
theorem plg_comma (rest cur : List Char) :
    parseLineGo (',' :: rest) cur false = cur :: parseLineGo rest [] false := by
  rw [plg_other ',' rest cur false (by decide)]
  rw [if_pos ⟨rfl, rfl⟩]

theorem splitLines_nl (rest : List Char) :
    splitLines ('\n' :: rest) = [] :: splitLines rest := rfl

theorem splitLines_other (c : Char) (rest : List Char) (hn : c ≠ '\n') (hr : c ≠ '\r') :
    splitLines (c :: rest)
      = match splitLines rest with
        | [] => [[c]]
        | l :: ls => (c :: l) :: ls := by
  rw [splitLines.eq_def]
  split
  all_goals simp_all

theorem contains_iff_mem (l : List Char) (a : Char) : l.contains a = true ↔ a ∈ l := by
  simp [List.elem_iff, List.contains]

/-- A run of characters free of quotes and commas is consumed verbatim into
the current cell. -/
theorem plg_plain (s : List Char) (rest cur : List Char) (inQ : Bool)
    (hq : '"' ∉ s) (hc : ',' ∉ s) :
    parseLineGo (s ++ rest) cur inQ = parseLineGo rest (cur ++ s) inQ := by
  induction s generalizing cur with
  | nil => simp
  | cons a t ih =>
    have ha1 : a ≠ '"' := fun h => hq (by simp [h])
    have ha2 : a ≠ ',' := fun h => hc (by simp [h])
    rw [List.cons_append, plg_other a (t ++ rest) cur inQ ha1,
      if_neg (by simp [ha2])]
    rw [ih (cur ++ [a]) (fun h => hq (List.mem_cons_of_mem a h))
        (fun h => hc (List.mem_cons_of_mem a h))]
    rw [List.append_assoc, List.singleton_append]

/-- Inside quotes, the escaped body of a value is consumed verbatim and the
closing quote returns to the out-of-quote state. -/
theorem plg_quoted_body (v : List Char) (rest cur : List Char)
    (hrest : rest.head? ≠ some '"') :
    parseLineGo (escQuotes v ++ '"' :: rest) cur true
      = parseLineGo rest (cur ++ v) false := by
  induction v generalizing cur with
  | nil =>
    show parseLineGo ('"' :: rest) cur true = parseLineGo rest (cur ++ []) false
    cases rest with
    | nil => simp [plg_quote_last, parseLineGo]
    | cons d ds =>
      have hd : d ≠ '"' := fun h => hrest (by simp [h])
      rw [plg_quote d ds cur true hd]
      simp
  | cons a t ih =>
    by_cases ha : a = '"'
    · subst ha
      have he : escQuotes ('"' :: t) = '"' :: '"' :: escQuotes t := rfl
      rw [he, List.cons_append, List.cons_append, plg_pair, ih]
      rw [List.append_assoc, List.singleton_append]
    · have he : escQuotes (a :: t) = a :: escQuotes t := by
        simp [escQuotes, ha]
      rw [he, List.cons_append, plg_inquote a _ cur ha, ih]
      rw [List.append_assoc, List.singleton_append]

/-- A whole quoted cell (opening quote, escaped body with at least one
non-quote character, closing quote) parses back to the original value and
leaves the out-of-quote state. -/
theorem plg_quoted_cell (v : List Char) (rest cur : List Char)
    (hnq : ∃ c ∈ v, c ≠ '"') (hrest : rest.head? ≠ some '"') :
    parseLineGo ('"' :: (escQuotes v ++ '"' :: rest)) cur false
      = parseLineGo rest (cur ++ v) false := by
  induction v generalizing cur with
  | nil =>
    rcases hnq with ⟨c, hc, _⟩
    cases hc
  | cons a t ih =>
    by_cases ha : a = '"'
    · subst ha
      have he : escQuotes ('"' :: t) = '"' :: '"' :: escQuotes t := rfl
      have hshape : ('"' :: (escQuotes ('"' :: t) ++ '"' :: rest) : List Char)
          = '"' :: '"' :: ('"' :: (escQuotes t ++ '"' :: rest)) := by
        rw [he]
        simp
      rw [hshape, plg_pair]
      have hnq' : ∃ c ∈ t, c ≠ '"' := by
        rcases hnq with ⟨c, hc, hcne⟩
        rcases List.mem_cons.mp hc with rfl | hct
        · exact absurd rfl hcne
        · exact ⟨c, hct, hcne⟩
      rw [ih (cur ++ ['"']) hnq', List.append_assoc, List.singleton_append]
    · have he : escQuotes (a :: t) = a :: escQuotes t := by
        simp [escQuotes, ha]
      rw [he, List.cons_append, plg_quote a _ cur false ha]
      show parseLineGo (a :: (escQuotes t ++ '"' :: rest)) cur true = _
      rw [plg_inquote a _ cur ha, plg_quoted_body t rest _ hrest]
      rw [List.append_assoc, List.singleton_append]

/-- Well-formedness of one value for the round trip: no newline or carriage
return (the line split would cut it), trim-stable (the parser trims cells),
and, when non-empty, not consisting solely of double quotes (the pair-greedy
parser mis-aligns an all-quote cell). -/
def WfValue (v : String) : Prop :=
  '\n' ∉ v.data ∧ '\r' ∉ v.data ∧ jsTrim v.data = v.data
    ∧ (v.data ≠ [] → ∃ c ∈ v.data, c ≠ '"')

/-- Well-formedness of a header: non-empty, free of comma, quote, newline and
carriage return, and trim-stable. -/
def WfHeader (h : String) : Prop :=
  h.data ≠ [] ∧ ',' ∉ h.data ∧ '"' ∉ h.data ∧ '\n' ∉ h.data ∧ '\r' ∉ h.data
    ∧ jsTrim h.data = h.data

theorem csvEscape_clean (s : String) (hc : ',' ∉ s.data) (hq : '"' ∉ s.data)
    (hn : '\n' ∉ s.data) : csvEscape (some s) = s := by
  have : csvNeedsQuote s.data = false := by
    simp only [csvNeedsQuote, Bool.or_eq_false_iff]
    refine ⟨⟨?_, ?_⟩, ?_⟩ <;>
      simp only [← Bool.not_eq_true, contains_iff_mem] <;> assumption
  simp [csvEscape, this]

/-- One escaped cell, followed by nothing or by a comma, parses back to the
original value. -/
theorem plg_cell (v : String) (rest cur : List Char)
    (hn : '\n' ∉ v.data) (hnq : v.data ≠ [] → ∃ c ∈ v.data, c ≠ '"')
    (hrest : rest = [] ∨ ∃ r, rest = ',' :: r) :
    parseLineGo ((csvEscape (some v)).data ++ rest) cur false
      = parseLineGo rest (cur ++ v.data) false := by
  have hrest' : rest.head? ≠ some '"' := by
    rcases hrest with rfl | ⟨r, rfl⟩ <;> simp
  by_cases hq : csvNeedsQuote v.data
  · have hdata : (csvEscape (some v)).data = '"' :: escQuotes v.data ++ ['"'] := by
      simp [csvEscape, hq]
    have hnq' : ∃ c ∈ v.data, c ≠ '"' := by
      rcases (Bool.or_eq_true _ _).mp hq with h1 | h2
      · rcases (Bool.or_eq_true _ _).mp h1 with hcm | hqm
        · exact ⟨',', (contains_iff_mem _ _).mp hcm, by decide⟩
        · exact hnq (List.ne_nil_of_mem ((contains_iff_mem _ _).mp hqm))
      · exact absurd ((contains_iff_mem _ _).mp h2) hn
    have hshape : (('"' :: escQuotes v.data ++ ['"']) ++ rest : List Char)
        = '"' :: (escQuotes v.data ++ '"' :: rest) := by simp
    rw [hdata, hshape, plg_quoted_cell v.data rest cur hnq' hrest']
  · have hdata : (csvEscape (some v)).data = v.data := by simp [csvEscape, hq]
    rw [hdata]
    refine plg_plain v.data rest cur false ?_ ?_
    · intro h
      refine hq ?_
      simp only [csvNeedsQuote, Bool.or_eq_true, contains_iff_mem]
      exact Or.inl (Or.inr h)
    · intro h
      refine hq ?_
      simp only [csvNeedsQuote, Bool.or_eq_true, contains_iff_mem]
      exact Or.inl (Or.inl h)

/-- A whole body line of escaped cells parses back to the original values. -/
theorem parseLineGo_cells (vs : List String) (v : String) (cur : List Char)
    (hwf : ∀ w ∈ v :: vs, '\n' ∉ w.data ∧ (w.data ≠ [] → ∃ c ∈ w.data, c ≠ '"')) :
    parseLineGo (joinSep ',' ((v :: vs).map fun w => (csvEscape (some w)).data)) cur false
      = (cur ++ v.data) :: vs.map (·.data) := by
  induction vs generalizing v cur with
  | nil =>
    show parseLineGo ((csvEscape (some v)).data) cur false = [cur ++ v.data]
    rw [← List.append_nil ((csvEscape (some v)).data)]
    rw [plg_cell v [] cur (hwf v (by simp)).1 (hwf v (by simp)).2 (Or.inl rfl)]
    rfl
  | cons w ws ih =>
    show parseLineGo ((csvEscape (some v)).data
        ++ ',' :: joinSep ',' ((w :: ws).map fun u => (csvEscape (some u)).data))
        cur false = _
    rw [plg_cell v _ cur (hwf v (by simp)).1 (hwf v (by simp)).2 (Or.inr ⟨_, rfl⟩)]
    rw [plg_comma]
    rw [ih w [] (fun u hu => hwf u (by
      rcases List.mem_cons.mp hu with rfl | hu'
      · exact List.mem_cons_of_mem _ (List.mem_cons_self _ _)
      · exact List.mem_cons_of_mem _ (List.mem_cons_of_mem _ hu')))]
    rw [List.nil_append, List.map_cons]

/-- A line free of newlines and carriage returns is one whole line. -/
def CleanLine (l : List Char) : Prop := '\n' ∉ l ∧ '\r' ∉ l

theorem splitLines_clean (a : List Char) (h : CleanLine a) : splitLines a = [a] := by
  induction a with
  | nil => rfl
  | cons c t ih =>
    have hn : c ≠ '\n' := fun e => h.1 (by simp [e])
    have hr : c ≠ '\r' := fun e => h.2 (by simp [e])
    rw [splitLines_other c t hn hr,
      ih ⟨fun e => h.1 (List.mem_cons_of_mem _ e), fun e => h.2 (List.mem_cons_of_mem _ e)⟩]

theorem splitLines_append (a b : List Char) (h : CleanLine a) :
    splitLines (a ++ '\n' :: b) = a :: splitLines b := by
  induction a with
  | nil => exact splitLines_nl b
  | cons c t ih =>
    have hn : c ≠ '\n' := fun e => h.1 (by simp [e])
    have hr : c ≠ '\r' := fun e => h.2 (by simp [e])
    rw [List.cons_append, splitLines_other c _ hn hr,
      ih ⟨fun e => h.1 (List.mem_cons_of_mem _ e), fun e => h.2 (List.mem_cons_of_mem _ e)⟩]

theorem splitLines_joinSep (ls : List (List Char)) (hne : ls ≠ [])
    (h : ∀ l ∈ ls, CleanLine l) :
    splitLines (joinSep '\n' ls) = ls := by
  induction ls with
  | nil => exact absurd rfl hne
  | cons v vs ih =>
    cases vs with
    | nil => exact splitLines_clean v (h v (by simp))
    | cons w ws =>
      show splitLines (v ++ '\n' :: joinSep '\n' (w :: ws)) = _
      rw [splitLines_append v _ (h v (by simp)),
        ih (by simp) (fun l hl => h l (List.mem_cons_of_mem _ hl))]

theorem mem_dropWhile_of_not (p : Char → Bool) (l : List Char) (c : Char)
    (hc : c ∈ l) (hp : p c = false) : c ∈ l.dropWhile p := by
  have hsplit : l.takeWhile p ++ l.dropWhile p = l :=
    List.takeWhile_append_dropWhile p l
  rcases List.mem_append.mp (by rw [hsplit]; exact hc :
      c ∈ l.takeWhile p ++ l.dropWhile p) with h | h
  · exact absurd (List.mem_takeWhile_imp h) (by simp [hp])
  · exact h

theorem jsTrim_ne_nil_of_mem (l : List Char) (c : Char) (hc : c ∈ l)
    (hp : jsIsWS c = false) : jsTrim l ≠ [] := by
  have h1 : c ∈ l.dropWhile jsIsWS := mem_dropWhile_of_not _ _ _ hc hp
  have h2 : c ∈ (l.dropWhile jsIsWS).reverse := List.mem_reverse.mpr h1
  have h3 : c ∈ ((l.dropWhile jsIsWS).reverse).dropWhile jsIsWS :=
    mem_dropWhile_of_not _ _ _ h2 hp
  exact List.ne_nil_of_mem (List.mem_reverse.mpr h3)

theorem mem_joinSep (sep : Char) (ls : List (List Char)) (c : Char)
    (h : c ∈ joinSep sep ls) : c = sep ∨ ∃ l ∈ ls, c ∈ l := by
  induction ls with
  | nil => simp [joinSep] at h
  | cons v vs ih =>
    cases vs with
    | nil => exact Or.inr ⟨v, by simp, h⟩
    | cons w ws =>
      rw [show joinSep sep (v :: w :: ws) = v ++ sep :: joinSep sep (w :: ws) from rfl] at h
      rcases List.mem_append.mp h with h1 | h1
      · exact Or.inr ⟨v, by simp, h1⟩
      · rcases List.mem_cons.mp h1 with rfl | h2
        · exact Or.inl rfl
        · rcases ih h2 with h3 | ⟨l, hl, hcl⟩
          · exact Or.inl h3
          · exact Or.inr ⟨l, List.mem_cons_of_mem _ hl, hcl⟩

theorem mem_escQuotes (v : List Char) (c : Char) (h : c ∈ escQuotes v) :
    c = '"' ∨ c ∈ v := by
  induction v with
  | nil => simp [escQuotes] at h
  | cons a t ih =>
    by_cases ha : a = '"'
    · subst ha
      simp only [escQuotes, if_pos rfl] at h
      rcases List.mem_cons.mp h with rfl | h1
      · exact Or.inl rfl
      · rcases List.mem_cons.mp h1 with rfl | h2
        · exact Or.inl rfl
        · rcases ih h2 with h3 | h3
          · exact Or.inl h3
          · exact Or.inr (List.mem_cons_of_mem _ h3)
    · simp only [escQuotes, if_neg ha] at h
      rcases List.mem_cons.mp h with rfl | h1
      · exact Or.inr (List.mem_cons_self _ _)
      · rcases ih h1 with h3 | h3
        · exact Or.inl h3
        · exact Or.inr (List.mem_cons_of_mem _ h3)

theorem mem_csvEscape (v : String) (c : Char) (h : c ∈ (csvEscape (some v)).data) :
    c = '"' ∨ c ∈ v.data := by
  by_cases hq : csvNeedsQuote v.data
  · rw [show (csvEscape (some v)).data = '"' :: escQuotes v.data ++ ['"'] from by
      simp [csvEscape, hq]] at h
    rcases List.mem_cons.mp h with rfl | h1
    · exact Or.inl rfl
    · rcases List.mem_append.mp h1 with h2 | h2
      · exact mem_escQuotes v.data c h2
      · exact Or.inl (by simpa using h2)
  · rw [show (csvEscape (some v)).data = v.data from by simp [csvEscape, hq]] at h
    exact Or.inr h

theorem rowGet_cons_self (k v : String) (r' : List (String × String)) :
    rowGet ((k, v) :: r') k = some v := by
  simp [rowGet]

theorem rowGet_cons_ne (k v h : String) (r' : List (String × String)) (hne : k ≠ h) :
    rowGet ((k, v) :: r') h = rowGet r' h := by
  have hb : (k == h) = false := beq_eq_false_iff_ne.mpr hne
  simp [rowGet, List.find?, hb]

/-- Looking each key of a duplicate-free row object up in that object yields
exactly its values, in order. -/
theorem rowVals (r : List (String × String)) (hnd : (r.map Prod.fst).Nodup) :
    (r.map Prod.fst).map (fun h => rowGet r h) = r.map (fun p => some p.2) := by
  induction r with
  | nil => rfl
  | cons p r' ih =>
    obtain ⟨k, v⟩ := p
    rw [List.map_cons] at hnd
    rw [List.map_cons, List.map_cons, List.map_cons]
    rcases List.nodup_cons.mp hnd with ⟨hk, hnd'⟩
    congr 1
    · exact rowGet_cons_self k v r'
    · rw [List.map_congr_left
        (fun h hh => rowGet_cons_ne k v h r' (fun e => hk (by rw [e]; exact hh)))]
      exact ih hnd'

/-- The escaped cells of a row, computed by looking up each header, are the
escaped values of the row in order. -/
theorem rowCells_eq (r : List (String × String)) (hnd : (r.map Prod.fst).Nodup) :
    (r.map Prod.fst).map (fun h => (csvEscape (rowGet r h)).data)
      = r.map (fun p => (csvEscape (some p.2)).data) := by
  have h1 := rowVals r hnd
  calc (r.map Prod.fst).map (fun h => (csvEscape (rowGet r h)).data)
      = ((r.map Prod.fst).map fun h => rowGet r h).map (fun o => (csvEscape o).data) := by
        simp only [List.map_map]
        rfl
    _ = (r.map fun p => some p.2).map (fun o => (csvEscape o).data) := by rw [h1]
    _ = r.map (fun p => (csvEscape (some p.2)).data) := by
        simp only [List.map_map]
        rfl

/-- `buildRow` over a row's own keys and (trim-stable) values reproduces the
row, with each value wrapped in `some`. -/
theorem buildRow_vals (r : List (String × String))
    (ht : ∀ p ∈ r, jsTrim p.2.data = p.2.data) :
    buildRow (r.map Prod.fst) (r.map fun p => p.2.data)
      = r.map fun p => (p.1, some p.2) := by
  induction r with
  | nil => rfl
  | cons p r' ih =>
    rw [List.map_cons, List.map_cons, List.map_cons]
    show (p.1, some (⟨jsTrim p.2.data⟩ : String)) :: buildRow (r'.map Prod.fst) (r'.map fun q => q.2.data) = _
    rw [ht p (by simp), ih (fun q hq => ht q (List.mem_cons_of_mem _ hq))]

/-- Parsing the whole comma-joined escaped body line recovers the values. -/
theorem parseLine_body (v : String) (vs : List String)
    (hwf : ∀ w ∈ v :: vs, '\n' ∉ w.data ∧ (w.data ≠ [] → ∃ c ∈ w.data, c ≠ '"')) :
    parseLine (joinSep ',' ((v :: vs).map fun w => (csvEscape (some w)).data))
      = (v :: vs).map (·.data) := by
  unfold parseLine
  rw [parseLineGo_cells vs v [] hwf]
  simp

/-- Parsing the raw comma-joined header line recovers the headers. -/
theorem parseLine_headers (h : String) (hs : List String)
    (hwf : ∀ x ∈ h :: hs, ',' ∉ x.data ∧ '"' ∉ x.data ∧ '\n' ∉ x.data) :
    parseLine (joinSep ',' ((h :: hs).map String.data)) = (h :: hs).map (·.data) := by
  have hmap : (h :: hs).map String.data
      = (h :: hs).map (fun w => (csvEscape (some w)).data) := by
    refine List.map_congr_left fun x hx => ?_
    rw [csvEscape_clean x (hwf x hx).1 (hwf x hx).2.1 (hwf x hx).2.2]
  conv_lhs => rw [hmap]
  refine parseLine_body h hs fun w hw => ⟨(hwf w hw).2.2, fun hne => ?_⟩
  obtain ⟨c, hc⟩ := List.exists_mem_of_ne_nil _ hne
  exact ⟨c, hc, fun e => (hwf w hw).2.1 (e ▸ hc)⟩

/-- One generated body line: the escaped cells of a row, comma-joined. -/
def rowLineOf (headers : List String) (r : List (String × String)) : List Char :=
  joinSep ',' (headers.map fun h => (csvEscape (rowGet r h)).data)

theorem rowLineOf_values (headers : List String) (r : List (String × String))
    (hnd : headers.Nodup) (hk : r.map Prod.fst = headers) :
    rowLineOf headers r = joinSep ',' (r.map fun p => (csvEscape (some p.2)).data) := by
  unfold rowLineOf
  rw [← hk]
  exact congrArg (joinSep ',') (rowCells_eq r (by rw [hk]; exact hnd))

theorem generateCSV_data (rows : List (List (String × String))) (headers : List String) :
    (generateCSV rows headers).data
      = joinSep ',' (headers.map String.data)
        ++ '\n' :: joinSep '\n' (rows.map (rowLineOf headers)) := rfl

theorem headerLine_clean (h0 : String) (hs : List String)
    (hh : ∀ h ∈ h0 :: hs, WfHeader h) :
    CleanLine (joinSep ',' ((h0 :: hs).map String.data)) := by
  constructor <;> intro hmem <;>
    rcases mem_joinSep ',' _ _ hmem with he | ⟨l, hl, hcl⟩
  · exact absurd he (by decide)
  · obtain ⟨x, hx, rfl⟩ := List.mem_map.mp hl
    exact (hh x hx).2.2.2.1 hcl
  · exact absurd he (by decide)
  · obtain ⟨x, hx, rfl⟩ := List.mem_map.mp hl
    exact (hh x hx).2.2.2.2.1 hcl

theorem rowLine_clean (r : List (String × String))
    (hv : ∀ p ∈ r, WfValue p.2) :
    CleanLine (joinSep ',' (r.map fun p => (csvEscape (some p.2)).data)) := by
  constructor <;> intro hmem <;>
    rcases mem_joinSep ',' _ _ hmem with he | ⟨l, hl, hcl⟩
  · exact absurd he (by decide)
  · obtain ⟨p, hp, rfl⟩ := List.mem_map.mp hl
    rcases mem_csvEscape p.2 _ hcl with he2 | he2
    · exact absurd he2 (by decide)
    · exact (hv p hp).1 he2
  · exact absurd he (by decide)
  · obtain ⟨p, hp, rfl⟩ := List.mem_map.mp hl
    rcases mem_csvEscape p.2 _ hcl with he2 | he2
    · exact absurd he2 (by decide)
    · exact (hv p hp).2.1 he2

theorem headerLine_kept (h0 : String) (hs : List String)
    (hh : ∀ h ∈ h0 :: hs, WfHeader h) :
    jsTrim (joinSep ',' ((h0 :: hs).map String.data)) ≠ [] := by
  cases hs with
  | nil =>
    show jsTrim h0.data ≠ []
    rw [(hh h0 (by simp)).2.2.2.2.2]
    exact (hh h0 (by simp)).1
  | cons h1 hs' =>
    refine jsTrim_ne_nil_of_mem _ ',' ?_ (by decide)
    show ',' ∈ h0.data ++ ',' :: joinSep ',' ((h1 :: hs').map String.data)
    exact List.mem_append.mpr (Or.inr (List.mem_cons_self _ _))

theorem headers_parse_trim (h0 : String) (hs : List String)
    (hh : ∀ h ∈ h0 :: hs, WfHeader h) :
    (parseLine (joinSep ',' ((h0 :: hs).map String.data))).map
        (fun h => (⟨jsTrim h⟩ : String))
      = h0 :: hs := by
  rw [parseLine_headers h0 hs
    (fun x hx => ⟨(hh x hx).2.1, (hh x hx).2.2.1, (hh x hx).2.2.2.1⟩)]
  have hstep : ((h0 :: hs).map (fun x => x.data)).map (fun l => (⟨jsTrim l⟩ : String))
      = (h0 :: hs).map (fun x => (⟨jsTrim x.data⟩ : String)) := by
    rw [List.map_map]
    rfl
  rw [hstep]
  have hid : ∀ x ∈ h0 :: hs, (⟨jsTrim x.data⟩ : String) = x := fun x hx => by
    rw [(hh x hx).2.2.2.2.2]
  rw [List.map_congr_left hid]
  exact List.map_id _

theorem rowLine_kept (h0 : String) (hs : List String) (r : List (String × String))
    (hk : r.map Prod.fst = h0 :: hs)
    (hv : ∀ p ∈ r, WfValue p.2)
    (hone : hs = [] → ∀ p ∈ r, p.2.data ≠ []) :
    jsTrim (joinSep ',' (r.map fun p => (csvEscape (some p.2)).data)) ≠ [] := by
  rcases r with _ | ⟨p0, r''⟩
  · exact absurd hk.symm (by simp)
  · cases hs with
    | nil =>
      have hr'' : r'' = [] := by
        cases r'' with
        | nil => rfl
        | cons q t => simp at hk
      subst hr''
      show jsTrim ((csvEscape (some p0.2)).data) ≠ []
      have hvne : p0.2.data ≠ [] := hone rfl p0 (by simp)
      by_cases hq : csvNeedsQuote p0.2.data
      · refine jsTrim_ne_nil_of_mem _ '"' ?_ (by decide)
        rw [show (csvEscape (some p0.2)).data = '"' :: escQuotes p0.2.data ++ ['"'] from by
          simp [csvEscape, hq]]
        simp
      · rw [show (csvEscape (some p0.2)).data = p0.2.data from by simp [csvEscape, hq]]
        rw [(hv p0 (by simp)).2.2.1]
        exact hvne
    | cons h1 hs' =>
      rcases r'' with _ | ⟨p1, r3⟩
      · simp at hk
      · refine jsTrim_ne_nil_of_mem _ ',' ?_ (by decide)
        show ',' ∈ (csvEscape (some p0.2)).data
          ++ ',' :: joinSep ',' ((p1 :: r3).map fun p => (csvEscape (some p.2)).data)
        exact List.mem_append.mpr (Or.inr (List.mem_cons_self _ _))

theorem rowLine_parse (h0 : String) (hs : List String) (r : List (String × String))
    (hnd : (h0 :: hs).Nodup)
    (hk : r.map Prod.fst = h0 :: hs)
    (hv : ∀ p ∈ r, WfValue p.2) :
    buildRow (h0 :: hs) (parseLine (rowLineOf (h0 :: hs) r))
      = r.map fun p => (p.1, some p.2) := by
  have hpl : parseLine (rowLineOf (h0 :: hs) r) = r.map (fun p => p.2.data) := by
    rw [rowLineOf_values (h0 :: hs) r hnd hk]
    rcases r with _ | ⟨p0, r''⟩
    · exact absurd hk.symm (by simp)
    · have hmapeq : ((p0 :: r'').map fun p => (csvEscape (some p.2)).data)
          = ((p0.2 :: r''.map (fun p => p.2)).map fun w => (csvEscape (some w)).data) := by
        simp only [List.map_cons, List.map_map]
        rfl
      rw [hmapeq, parseLine_body p0.2 (r''.map (fun p => p.2)) ?_]
      · simp only [List.map_cons, List.map_map]
        rfl
      · intro w hw
        rcases List.mem_cons.mp hw with rfl | hw'
        · exact ⟨(hv p0 (by simp)).1, (hv p0 (by simp)).2.2.2⟩
        · obtain ⟨p, hp, rfl⟩ := List.mem_map.mp hw'
          exact ⟨(hv p (List.mem_cons_of_mem _ hp)).1,
            (hv p (List.mem_cons_of_mem _ hp)).2.2.2⟩
  rw [hpl, ← hk]
  exact buildRow_vals r (fun p hp => (hv p hp).2.2.1)

instance (h : String) : Decidable (WfHeader h) := by unfold WfHeader; infer_instance

instance (v : String) : Decidable (WfValue v) := by unfold WfValue; infer_instance

theorem parseCSV_eq_of_lines (text : String) (l0 : List Char) (rest : List (List Char))
    (h : (splitLines text.data).filter (fun l => !(jsTrim l).isEmpty) = l0 :: rest) :
    parseCSV text
      = ⟨(parseLine l0).map fun x => (⟨jsTrim x⟩ : String),
         rest.map fun line =>
           buildRow ((parseLine l0).map fun x => (⟨jsTrim x⟩ : String)) (parseLine line)⟩ := by
  unfold parseCSV
  rw [h]

/-- Claim C6 (amended): generating CSV from well-formed headers (non-empty,
duplicate-free, no comma/quote/newline/CR, trim-stable) and rows keyed exactly
by those headers, whose values contain no newline or carriage return, equal
their own trim, are not made solely of double quotes, and (when there is a
single header) are non-empty, then parsing it back reproduces the header list
and every row's values exactly. Embedded newlines are excluded: the parser
splits on newlines before looking at quotes, so they break the round trip
(see the counterexample). -/
theorem csv_roundtrip_amended (headers : List String)
    (rows : List (List (String × String)))
    (hne : headers ≠ [])
    (hnd : headers.Nodup)
    (hh : ∀ h ∈ headers, WfHeader h)
    (hkeys : ∀ r ∈ rows, r.map Prod.fst = headers)
    (hvals : ∀ r ∈ rows, ∀ p ∈ r, WfValue p.2)
    (hone : headers.length = 1 → ∀ r ∈ rows, ∀ p ∈ r, p.2.data ≠ []) :
    parseCSV (generateCSV rows headers)
      = ⟨headers, rows.map fun r => r.map fun p => (p.1, some p.2)⟩ := by
  obtain ⟨h0, hs, rfl⟩ : ∃ h0 hs, headers = h0 :: hs := by
    cases headers with
    | nil => exact absurd rfl hne
    | cons a t => exact ⟨a, t, rfl⟩
  have hHclean := headerLine_clean h0 hs hh
  have hHkeep := headerLine_kept h0 hs hh
  have hHparse := headers_parse_trim h0 hs hh
  cases rows with
  | nil =>
    have hfilter : ((splitLines (generateCSV [] (h0 :: hs)).data).filter
        fun l => !(jsTrim l).isEmpty)
        = [joinSep ',' ((h0 :: hs).map String.data)] := by
      rw [generateCSV_data]
      rw [show (joinSep '\n' (([] : List (List (String × String))).map
        (rowLineOf (h0 :: hs)))) = ([] : List Char) from rfl]
      rw [splitLines_append _ _ hHclean]
      rw [show splitLines ([] : List Char) = [[]] from rfl]
      rw [List.filter_cons_of_pos (by simpa using hHkeep),
        List.filter_cons_of_neg (by decide), List.filter_nil]
    rw [parseCSV_eq_of_lines _ _ _ hfilter, hHparse]
    rfl
  | cons r0 rs =>
    have hclean2 : ∀ l ∈ (r0 :: rs).map (rowLineOf (h0 :: hs)), CleanLine l := by
      intro l hl
      obtain ⟨r, hr, rfl⟩ := List.mem_map.mp hl
      rw [rowLineOf_values _ _ hnd (hkeys r hr)]
      exact rowLine_clean r (hvals r hr)
    have hlines : ((splitLines (generateCSV (r0 :: rs) (h0 :: hs)).data).filter
        fun l => !(jsTrim l).isEmpty)
        = joinSep ',' ((h0 :: hs).map String.data)
          :: (r0 :: rs).map (rowLineOf (h0 :: hs)) := by
      rw [generateCSV_data]
      rw [splitLines_append _ _ hHclean]
      rw [splitLines_joinSep ((r0 :: rs).map (rowLineOf (h0 :: hs))) (by simp) hclean2]
      rw [List.filter_cons_of_pos (by simpa using hHkeep)]
      congr 1
      refine List.filter_eq_self.mpr ?_
      intro l hl
      obtain ⟨r, hr, rfl⟩ := List.mem_map.mp hl
      have hkept : jsTrim (rowLineOf (h0 :: hs) r) ≠ [] := by
        rw [rowLineOf_values _ _ hnd (hkeys r hr)]
        exact rowLine_kept h0 hs r (hkeys r hr) (hvals r hr)
          (fun hhs p hp => hone (by simp [hhs]) r hr p hp)
      simpa using hkept
    rw [parseCSV_eq_of_lines _ _ _ hlines, hHparse]
    congr 1
    rw [List.map_map]
    refine List.map_congr_left ?_
    intro r hr
    exact rowLine_parse h0 hs r hnd (hkeys r hr) (hvals r hr)

/-- Counterexample to claim C6 as stated: a value with an embedded newline
inside a quoted field. `generateCSV` quotes the value correctly, but
`parseCSV` splits the text on the newline before looking at quotes, so the
single original row comes back as two mangled rows instead of one row holding
the original value. -/
theorem csv_roundtrip_newline_counterexample :
    (parseCSV (generateCSV [[("a", "x\ny")]] ["a"])).rows
        = [[("a", some "x")], [("a", some "y")]]
      ∧ (parseCSV (generateCSV [[("a", "x\ny")]] ["a"])).rows
        ≠ [[("a", some "x\ny")]] :=
  ⟨by decide, by decide⟩

/-- Witness for the amended C6 at a concrete input whose values contain a
comma and escaped double quotes. -/
theorem csv_roundtrip_amended_witness :
    parseCSV (generateCSV [[("a", "x,y"), ("b", "said \"hi\"")]] ["a", "b"])
      = ⟨["a", "b"], [[("a", some "x,y"), ("b", some "said \"hi\"")]]⟩ :=
  csv_roundtrip_amended ["a", "b"] [[("a", "x,y"), ("b", "said \"hi\"")]]
    (by decide) (by decide) (by decide) (by decide) (by decide) (by decide)

end Agds

